import Mathlib

/-!
Verification development for the lsp-tui repository: a shallow embedding of
the document-synchronization core (session store, edit translator, version
counter, completion trigger policy, completion response filtering and the
server-side notification handlers), with theorems settling the specification
claims against it.

Conventions of the embedding:
* Machine integers are modeled as `Int` with explicit wrapping where the
  source uses `AtomicI32::fetch_add` (two's-complement wrap at `2^31`).
* Rust `anyhow::Result` values become `Except`; Rust panics that the claims
  talk about are modeled as a dedicated error constructor, documented at the
  definition.
* The text buffer of the editor (the external `kaolinite` crate) is modeled
  as a list of lines of characters plus a cursor; character columns and
  display columns are identified (no double-width handling), which is exact
  for the single-width text the theorems quantify over.
* External tree-sitter parsing is a parameter `parse : String → Option T`
  (the source's `Parser::parse` returns `Option<T>`); symbol extraction
  over a tree is likewise a parameter, since no claim depends on the query
  internals.
-/

namespace LspTui

/-- A (column, row) location, `kaolinite::Loc` (`x` = column, `y` = row). -/
structure Loc where
  x : Nat
  y : Nat
  deriving DecidableEq, Repr

/-- The editable buffer: `kaolinite::Document` modeled by its `lines` and
`cursor`. The rope/`char_ptr`/offset bookkeeping of the crate is derived
data over the same lines. -/
structure Doc where
  lines : List (List Char)
  cursor : Loc
  deriving DecidableEq, Repr

/-- `Document::line(y)` with a default: the source returns `Option<String>`;
call sites below that unwrap it do so only at in-range rows, which the
theorems' hypotheses guarantee. -/
def lineAt (d : Doc) (y : Nat) : List Char :=
  d.lines.getD y []

/-- Insert an element at an index (append when the index is past the end). -/
def insertAt {α : Type} : Nat → α → List α → List α
  | 0, a, l => a :: l
  | _ + 1, a, [] => [a]
  | n + 1, a, b :: l => b :: insertAt n a l

/-- `kaolinite::event::Event::Insert(loc, s)` applied through `Document::exe`:
splice `s` into line `loc.y` at column `loc.x`; the cursor ends just after
the inserted text. -/
def exeInsert (d : Doc) (loc : Loc) (s : List Char) : Doc :=
  let line := lineAt d loc.y
  { lines := d.lines.set loc.y (line.take loc.x ++ s ++ line.drop loc.x)
    cursor := ⟨loc.x + s.length, loc.y⟩ }

/-- `Event::Delete(loc, s)` for a string of `n` characters: remove `n`
characters of line `loc.y` starting at column `loc.x`; cursor ends at `loc`. -/
def exeDelete (d : Doc) (loc : Loc) (n : Nat) : Doc :=
  let line := lineAt d loc.y
  { lines := d.lines.set loc.y (line.take loc.x ++ line.drop (loc.x + n))
    cursor := loc }

/-- `Event::SplitDown(loc)`: split line `loc.y` at column `loc.x`; the tail
becomes a new line below and the cursor moves to its start. -/
def exeSplitDown (d : Doc) (loc : Loc) : Doc :=
  let line := lineAt d loc.y
  { lines := insertAt (loc.y + 1) (line.drop loc.x) (d.lines.set loc.y (line.take loc.x))
    cursor := ⟨0, loc.y + 1⟩ }

/-- `Event::SpliceUp(loc)`: append line `loc.y + 1` onto line `loc.y` and
remove it; the cursor moves to `loc` (the caller passes the join point). -/
def exeSpliceUp (d : Doc) (loc : Loc) : Doc :=
  let merged := lineAt d loc.y ++ lineAt d (loc.y + 1)
  { lines := (d.lines.set loc.y merged).eraseIdx (loc.y + 1)
    cursor := loc }

/-- `Event::InsertLine(y, s)`: insert a whole line at row `y`; the cursor is
left in place. -/
def exeInsertLine (d : Doc) (y : Nat) (s : List Char) : Doc :=
  { lines := insertAt y s d.lines
    cursor := d.cursor }

/-- `Document::move_up`, with the column clamped to the target line. -/
def moveUp (d : Doc) : Doc :=
  if 0 < d.cursor.y then
    let y := d.cursor.y - 1
    { lines := d.lines, cursor := ⟨min d.cursor.x (lineAt d y).length, y⟩ }
  else d

/-- `Document::move_down`; the row may reach `lines.length`, the synthetic
blank row past the end of the document. -/
def moveDown (d : Doc) : Doc :=
  if d.cursor.y < d.lines.length then
    let y := d.cursor.y + 1
    { lines := d.lines, cursor := ⟨min d.cursor.x (lineAt d y).length, y⟩ }
  else d

/-- `Document::move_left`, wrapping to the end of the previous line. -/
def moveLeft (d : Doc) : Doc :=
  if 0 < d.cursor.x then
    { lines := d.lines, cursor := ⟨d.cursor.x - 1, d.cursor.y⟩ }
  else if 0 < d.cursor.y then
    { lines := d.lines, cursor := ⟨(lineAt d (d.cursor.y - 1)).length, d.cursor.y - 1⟩ }
  else d

/-- `Document::move_right`, wrapping to the start of the next line. -/
def moveRight (d : Doc) : Doc :=
  if d.cursor.x < (lineAt d d.cursor.y).length then
    { lines := d.lines, cursor := ⟨d.cursor.x + 1, d.cursor.y⟩ }
  else if d.cursor.y < d.lines.length then
    { lines := d.lines, cursor := ⟨0, d.cursor.y + 1⟩ }
  else d

/-- The three position encodings negotiated at session start
(`tui::lsp_capabilities::Encoding`). -/
inductive Encoding where
  | utf8
  | utf16
  | utf32
  deriving DecidableEq, Repr

/-- An LSP `Position` (`line`, `character` in the negotiated encoding). -/
structure Position where
  line : Nat
  character : Nat
  deriving DecidableEq, Repr

/-- An LSP `Range`; the source field `end` is a Lean keyword and is renamed
`endPos`. -/
structure Range where
  start : Position
  endPos : Position
  deriving DecidableEq, Repr

/-- One protocol change descriptor as built in `tui::app`: a range plus the
replacement text (`Vec<(Range, String)>` entries). -/
abbrev Change : Type := Range × String

/-- Total UTF-8 byte length of a character list (Rust `str::len`). -/
def utf8Len (cs : List Char) : Nat :=
  (cs.map Char.utf8Size).sum

/-- Total UTF-16 code-unit length of a character list. -/
def utf16Len (cs : List Char) : Nat :=
  (cs.map fun c => if 0x10000 ≤ c.toNat then 2 else 1).sum

/-- `App::get_lsp_position`: convert a character-unit location into the
negotiated encoding against the current line content
(`to_utf8_loc` / `to_utf16_loc` / identity). -/
def getLspPosition (enc : Encoding) (d : Doc) (loc : Loc) : Position :=
  match enc with
  | .utf8 => ⟨loc.y, utf8Len ((lineAt d loc.y).take loc.x)⟩
  | .utf16 => ⟨loc.y, utf16Len ((lineAt d loc.y).take loc.x)⟩
  | .utf32 => ⟨loc.y, loc.x⟩

/-- `App::new_row` (tui/app.rs): when the cursor sits on the synthetic row
just past the last line, insert a blank line there and emit the synthetic
change descriptor `[pos, (row+1, 0)) ↦ "\r\n"`. -/
def newRowD (enc : Encoding) (d : Doc) : Doc × Option Change :=
  if d.cursor.y = d.lines.length then
    let y := d.cursor.y
    let d1 := exeInsertLine d y []
    let p := getLspPosition enc d1 ⟨(lineAt d1 y).length, y⟩
    (d1, some (⟨p, ⟨p.line + 1, 0⟩⟩, "\r\n"))
  else (d, none)

/-- `App::character` (tui/app.rs): a possible synthetic `new_row` change,
then the single-character insertion whose descriptor is the empty range at
the pre-insert cursor with the character as replacement text. -/
def characterD (enc : Encoding) (d : Doc) (c : Char) : Doc × List Change :=
  let r := newRowD enc d
  let d1 := r.1
  let loc := d1.cursor
  let p := getLspPosition enc d1 loc
  let d2 := exeInsert d1 loc [c]
  (d2, r.2.toList ++ [((⟨p, p⟩, String.singleton c) : Change)])

/-- `App::backspace` (tui/app.rs). At the start of a non-first in-range line
it splices the line up (the source's `new_row()` call there is a no-op since
the row is in range); in the middle of a line it deletes the character just
before the cursor with range `[pos, pos + one code unit)`. -/
def backspaceD (enc : Encoding) (d : Doc) : Doc × Option Change :=
  let c := d.cursor.x
  let onFirstLine := d.cursor.y = 0
  let outOfRange := d.lines.length ≤ d.cursor.y
  if c = 0 ∧ ¬onFirstLine ∧ ¬outOfRange then
    let loc : Loc := ⟨(lineAt d (d.cursor.y - 1)).length, d.cursor.y - 1⟩
    let p := getLspPosition enc d loc
    (exeSpliceUp d loc, some (⟨p, ⟨p.line + 1, 0⟩⟩, ""))
  else if 0 < c then
    match d.lines.get? d.cursor.y with
    | some line =>
      match line.get? (c - 1) with
      | some _ =>
        let loc : Loc := ⟨c - 1, d.cursor.y⟩
        let p := getLspPosition enc d loc
        (exeDelete d loc 1, some (⟨p, ⟨p.line, p.character + 1⟩⟩, ""))
      | none => (d, none)
    | none => (d, none)
  else (d, none)

/-- `App::enter` (tui/app.rs): split the line at the cursor when the cursor
is inside the document, otherwise fall through to `new_row`; both emit the
hard-coded two-character terminator. -/
def enterD (enc : Encoding) (d : Doc) : Doc × Option Change :=
  if d.cursor.y ≠ d.lines.length then
    let loc := d.cursor
    let p := getLspPosition enc d loc
    (exeSplitDown d loc, some (⟨p, ⟨p.line + 1, 0⟩⟩, "\r\n"))
  else newRowD enc d

/-- Negotiated capabilities used by the editor
(`tui::lsp_capabilities::LspCapabilities`). -/
structure LspCapabilities where
  triggerCharacters : List String
  encoding : Encoding
  deriving DecidableEq, Repr

/-- The editor state of `tui::app::App` that the synchronization core reads
and writes: the (single) document, the `AtomicI32` version counter, and the
completion display state. -/
structure App where
  capabilities : LspCapabilities
  doc : Doc
  version : Int
  showCompletions : Bool
  completions : List String
  deriving DecidableEq, Repr

/-- Two's-complement wrap of `AtomicI32::fetch_add`'s stored value. -/
def i32wrap (n : Int) : Int :=
  (n + 2 ^ 31) % 2 ^ 32 - 2 ^ 31

/-- Rust `char::is_alphanumeric` (Unicode Alphabetic plus Nd), modeled on the
ASCII subset; the trigger-policy theorems restrict lines to single-byte
(ASCII) characters, where the two predicates agree. -/
def rustIsAlphanumeric (c : Char) : Bool :=
  c.isAlphanum

/-- A word-prefix character: alphanumeric or underscore. -/
def wordChar (c : Char) : Bool :=
  rustIsAlphanumeric c || c == '_'

/-- Rust byte slicing `&line[..n]`: the characters spanned by the first `n`
UTF-8 bytes; `none` models the panic when `n` is not a character boundary or
exceeds the line (unreachable under the theorems' hypotheses). -/
def bytePrefix : List Char → Nat → Option (List Char)
  | _, 0 => some []
  | [], _ + 1 => none
  | c :: rest, n + 1 =>
    if c.utf8Size ≤ n + 1 then (bytePrefix rest (n + 1 - c.utf8Size)).map (c :: ·)
    else none

/-- The `word_under_cursor` computation of `App::handle_key_event`: byte-slice
the cursor line at the cursor column, then keep the trailing run of
word characters. -/
def wordUnderCursor (d : Doc) : List Char :=
  ((((bytePrefix (lineAt d d.cursor.y) d.cursor.x).getD []).reverse.takeWhile wordChar).reverse)

/-- The keystrokes `App::handle_key_event` distinguishes; `other` is the
wildcard arm of the source's match. -/
inductive Key where
  | up
  | down
  | left
  | right
  | ctrlQ
  | char (c : Char)
  | tab
  | backspace
  | enter
  | other
  deriving DecidableEq, Repr

/-- The observable outcome of one keystroke: the new editor state, the
content and version of the `did_change` notification command if one was
created (`get_change_command` performs the `fetch_add` when the command is
built), whether a completion request command was issued, and the prefix word
it carries. -/
structure KeyOut where
  app : App
  changeCmd : Option (List Change × Int)
  requestIssued : Bool
  requestWord : List Char
  deriving DecidableEq, Repr

/-- The edit phase of `App::handle_key_event`: the match over the key that
mutates the document and collects change descriptors. -/
def applyKey (enc : Encoding) (d : Doc) : Key → Doc × List Change
  | .up => (moveUp d, [])
  | .down => (moveDown d, [])
  | .left => (moveLeft d, [])
  | .right => (moveRight d, [])
  | .char c => characterD enc d c
  | .tab => characterD enc d '\t'
  | .backspace => let r := backspaceD enc d; (r.1, r.2.toList)
  | .enter => let r := enterD enc d; (r.1, r.2.toList)
  | .ctrlQ => (d, [])
  | .other => (d, [])

/-- The completion/notification phase of `App::handle_key_event`, run after
the edit phase produced document `d` and descriptors `changes`: reset
`show_completions`, re-enable it when the character before the new cursor is
a word or trigger character, build the change command (with one
`fetch_add`) when there are descriptors, and issue a completion request
unless a short non-trigger prefix suppresses it. -/
def finishKey (a : App) (d : Doc) (changes : List Change) : KeyOut :=
  if d.cursor ≠ a.doc.cursor ∨ changes ≠ [] then
    let scr :=
      if 0 < d.cursor.x then
        match (lineAt d d.cursor.y).get? (d.cursor.x - 1) with
        | some prev =>
          let trig := a.capabilities.triggerCharacters.contains (String.singleton prev)
          (trig, rustIsAlphanumeric prev || prev == '_' || trig)
        | none => (false, false)
      else (false, false)
    let version := if changes = [] then a.version else i32wrap (a.version + 1)
    let cmd : Option (List Change × Int) :=
      if changes = [] then none else some (changes, a.version)
    if scr.2 then
      let word := wordUnderCursor d
      if !scr.1 && utf8Len word < 2 then
        ⟨⟨a.capabilities, d, version, false, []⟩, cmd, false, word⟩
      else
        ⟨⟨a.capabilities, d, version, true, a.completions⟩, cmd, true, word⟩
    else
      ⟨⟨a.capabilities, d, version, false, []⟩, cmd, false, []⟩
  else
    ⟨⟨a.capabilities, d, a.version, false, []⟩, none, false, []⟩

/-- `App::handle_key_event`: Ctrl+Q returns early (quit) touching nothing;
every other key runs the edit phase then the completion/notification phase. -/
def handleKeyEvent (a : App) (k : Key) : KeyOut :=
  match k with
  | .ctrlQ => ⟨a, none, false, []⟩
  | k =>
    let r := applyKey a.capabilities.encoding a.doc k
    finishKey a r.1 r.2

/-- Run a sequence of keystrokes, collecting the emitted change commands in
order (the update loop processes one message at a time). -/
def runKeys (a : App) : List Key → App × List (List Change × Int)
  | [] => (a, [])
  | k :: rest =>
    let o := handleKeyEvent a k
    let r := runKeys o.app rest
    (r.1, o.changeCmd.toList ++ r.2)

/-- The versions attached to the change notifications emitted along a
keystroke trace. -/
def emittedVersions (a : App) (ks : List Key) : List Int :=
  (runKeys a ks).2.map (·.2)

/-- The claim's trigger condition, stated from the specification's words:
the character immediately before the new cursor column is alphanumeric, an
underscore, or a declared trigger character, and it is a trigger character
or the contiguous word prefix ending at the cursor has at least two
characters. -/
def specTriggerCond (trigs : List String) (d : Doc) : Bool :=
  if 0 < d.cursor.x then
    match (lineAt d d.cursor.y).get? (d.cursor.x - 1) with
    | some prev =>
      let trig := trigs.contains (String.singleton prev)
      (rustIsAlphanumeric prev || prev == '_' || trig) &&
        (trig || 2 ≤ ((((lineAt d d.cursor.y).take d.cursor.x).reverse.takeWhile wordChar).reverse).length)
    | none => false
  else false

/-- A line of single-byte (ASCII) characters; Rust's byte-indexed slicing in
`handle_key_event` coincides with character indexing exactly on such lines. -/
def asciiLine (cs : List Char) : Bool :=
  cs.all fun c => c.utf8Size == 1

/-! Server-side model: `core::session::Session`, the `handler` functions, and
the errors of `core::error`. Document identifiers (`lsp_types::Url`) are
plain strings; the tree type and the parse function are parameters. -/

/-- A document identifier (`Url`). -/
abbrev Url : Type := String

/-- `core::session::SessionResourceKind`. -/
inductive ResourceKind where
  | document
  | parser
  | tree
  deriving DecidableEq, Repr

/-- The error cases relevant to the handlers. `sessionResourceNotFound` and
`clientNotInitialized` are the `core::error::Error` variants; the
`panicIndexOutOfBounds` constructor models the Rust panic of the unguarded
`content_changes[0]` access in `handler::did_change`, which is not an
`anyhow` error in the source but terminates the handler at that point. -/
inductive HandlerError where
  | sessionResourceNotFound (kind : ResourceKind) (uri : Url)
  | clientNotInitialized
  | panicIndexOutOfBounds
  deriving DecidableEq, Repr

/-- Remove every binding for a key from an association-list map. -/
def alErase {α : Type} (m : List (Url × α)) (k : Url) : List (Url × α) :=
  m.filter fun p => p.1 ≠ k

/-- `DashMap::insert`: store the binding and return the previous value. -/
def alInsert {α : Type} (m : List (Url × α)) (k : Url) (v : α) :
    List (Url × α) × Option α :=
  ((k, v) :: alErase m k, List.lookup k m)

/-- `DashMap::remove`: drop the binding and return the previous value. -/
def alRemove {α : Type} (m : List (Url × α)) (k : Url) :
    List (Url × α) × Option α :=
  (alErase m k, List.lookup k m)

/-- `core::session::Session`: the three per-document resource maps plus the
optional client handle. The parser map stores only presence, since the
parser object is an opaque tree-sitter handle whose behavior enters the
model through the `parse` parameter. -/
structure Session (T : Type) where
  hasClient : Bool
  documentTexts : List (Url × String)
  documentParsers : List (Url × Unit)
  documentTrees : List (Url × T)

/-- `core::document::Document`: the rope content and the initial tree (the
parser handle is presence-only in the model). -/
structure SDocument (T : Type) where
  text : String
  tree : T

/-- `Session::insert_document`: inserts all three entries unconditionally and
always returns `Ok(())`; duplicates are flagged only by `debug_assert!`. The
returned `Bool` records whether all three debug assertions held (all previous
values absent); it is not part of the source's return value. -/
def insertDocument {T : Type} (s : Session T) (uri : Url) (d : SDocument T) :
    Except HandlerError (Session T × Bool) :=
  let t := alInsert s.documentTexts uri d.text
  let p := alInsert s.documentParsers uri ()
  let r := alInsert s.documentTrees uri d.tree
  .ok ({ s with documentTexts := t.1, documentParsers := p.1, documentTrees := r.1 },
    t.2.isNone && p.2.isNone && r.2.isNone)

/-- `Session::remove_document`: removes whatever entries exist and always
returns `Ok(())`; a missing entry is flagged only by `debug_assert!` (the
`Bool` records whether all three assertions held). The removed text is
dropped, not returned. -/
def removeDocument {T : Type} (s : Session T) (uri : Url) :
    Except HandlerError (Session T × Bool) :=
  let t := alRemove s.documentTexts uri
  let p := alRemove s.documentParsers uri
  let r := alRemove s.documentTrees uri
  .ok ({ s with documentTexts := t.1, documentParsers := p.1, documentTrees := r.1 },
    t.2.isSome && p.2.isSome && r.2.isSome)

/-- `Session::get_text` / `get_mut_text`: the text entry or a typed
Document-kind not-found error. -/
def getText {T : Type} (s : Session T) (uri : Url) : Except HandlerError String :=
  match List.lookup uri s.documentTexts with
  | some t => .ok t
  | none => .error (.sessionResourceNotFound .document uri)

/-- `Session::get_mut_parser`: presence of the parser entry or a typed
Parser-kind not-found error. -/
def getParserPresence {T : Type} (s : Session T) (uri : Url) : Except HandlerError Unit :=
  match List.lookup uri s.documentParsers with
  | some u => .ok u
  | none => .error (.sessionResourceNotFound .parser uri)

/-- `Session::get_tree` / `get_mut_tree`: the tree entry or a typed
T-kind not-found error. -/
def getTree {T : Type} (s : Session T) (uri : Url) : Except HandlerError T :=
  match List.lookup uri s.documentTrees with
  | some t => .ok t
  | none => .error (.sessionResourceNotFound .tree uri)

/-- Replace the stored text for an (existing) id. -/
def setText {T : Type} (s : Session T) (uri : Url) (text : String) : Session T :=
  { s with documentTexts := (alInsert s.documentTexts uri text).1 }

/-- Replace the stored tree for an (existing) id. -/
def setTree {T : Type} (s : Session T) (uri : Url) (tree : T) : Session T :=
  { s with documentTrees := (alInsert s.documentTrees uri tree).1 }

/-- `Document::open`: a full parse of the initial text; `None` when the
grammar cannot produce a tree. -/
def documentOpen {T : Type} (parse : String → Option T) (text : String) :
    Option (SDocument T) :=
  (parse text).map fun t => ⟨text, t⟩

/-- `handler::did_open`: insert the document when the initial parse
succeeded; otherwise only log a warning and insert nothing. -/
def didOpen {T : Type} (parse : String → Option T) (s : Session T)
    (uri : Url) (text : String) : Except HandlerError (Session T) :=
  match documentOpen parse text with
  | some d => (insertDocument s uri d).map (·.1)
  | none => .ok s

/-- `Document::change`: reparse the full text through the stored parser and,
when a tree comes back, replace the stored tree entry; a failed parse leaves
the old tree and still succeeds. -/
def documentChange {T : Type} (parse : String → Option T) (s : Session T)
    (uri : Url) (content : String) : Except HandlerError (Session T) := do
  let _ ← getParserPresence s uri
  match parse content with
  | some tree => do
    let _ ← getTree s uri
    .ok (setTree s uri tree)
  | none => .ok s

/-- `handler::did_change`: look up the text entry, replace it wholesale with
the text of `content_changes[0]` (a panic when the list is empty), then
reparse. -/
def didChange {T : Type} (parse : String → Option T) (s : Session T)
    (uri : Url) (contentChanges : List String) : Except HandlerError (Session T) := do
  let _ ← getText s uri
  match contentChanges with
  | [] => .error .panicIndexOutOfBounds
  | c :: _ =>
    let s1 := setText s uri c
    documentChange parse s1 uri c

/-- The `publish_diagnostics` notification sent by `did_close`: diagnostics
and version are `Default::default()` (empty list, `None`). -/
structure PublishedDiagnostics where
  uri : Url
  diagnostics : List Unit
  version : Option Int
  deriving DecidableEq, Repr

/-- `handler::did_close`: remove the document (infallible) and then publish
an empty-diagnostics reset through the client, failing only when no client
handle is configured. -/
def didClose {T : Type} (s : Session T) (uri : Url) :
    Except HandlerError (Session T × PublishedDiagnostics) := do
  let r ← removeDocument s uri
  if s.hasClient then
    .ok (r.1, ⟨uri, [], none⟩)
  else
    .error .clientNotInitialized

/-- `handler::document_symbol`: text then tree lookup (each propagating its
typed not-found error), then the structural query, abstracted as `extract`
since no claim depends on the tree-sitter pattern internals. -/
def documentSymbol {T σ : Type} (extract : T → String → List σ)
    (s : Session T) (uri : Url) : Except HandlerError (List σ) := do
  let text ← getText s uri
  let tree ← getTree s uri
  .ok (extract tree text)

/-! Completion response handling (`tui::app::handle_completion_response`). -/

/-- The fields of `lsp_types::CompletionItem` the handler reads. -/
structure CompletionItem where
  label : String
  filterText : Option String
  sortText : Option String
  deriving DecidableEq, Repr

/-- `lsp_types::CompletionResponse`: the plain-array and the list form. -/
inductive CompletionResponse where
  | array (items : List CompletionItem)
  | list (items : List CompletionItem)
  deriving DecidableEq, Repr

/-- Rust `str::starts_with`: a byte prefix test, which on valid UTF-8 is the
same as a character-list prefix test. -/
def strStartsWith (s pre : String) : Bool :=
  pre.data.isPrefixOf s.data

/-- Rust `String` ordering (byte-lexicographic, which agrees with Lean's
character-lexicographic order on strings). -/
def strLe (a b : String) : Bool :=
  decide (a < b) || a == b

/-- The comparator `a.sort_text.cmp(&b.sort_text)` as a ≤-test:
`Option<String>` orders `None` below every `Some`. -/
def sortKeyLe (a b : CompletionItem) : Bool :=
  match a.sortText, b.sortText with
  | none, _ => true
  | some _, none => false
  | some x, some y => strLe x y

/-- The candidate filter of the array branch: the label only. -/
def keepArray (word : String) (i : CompletionItem) : Bool :=
  strStartsWith i.label word

/-- The candidate filter of the list branch: the filter text, falling back to
the label when absent. -/
def keepList (word : String) (i : CompletionItem) : Bool :=
  match i.filterText with
  | some ft => strStartsWith ft word
  | none => strStartsWith i.label word

/-- The filter predicate the claim states for every response form: filter
text with fallback to label. -/
def specKeep (word : String) (i : CompletionItem) : Bool :=
  strStartsWith (i.filterText.getD i.label) word

/-- `handle_completion_response`: filter the candidates (array form by label,
list form by filter text with label fallback), stably sort by the
server-provided sort key, and return the labels. -/
def handleCompletionResponse (completions : CompletionResponse) (wordUnderCursor : String) :
    List String :=
  match completions with
  | .array items =>
    ((items.filter (keepArray wordUnderCursor)).mergeSort sortKeyLe).map (·.label)
  | .list items =>
    ((items.filter (keepList wordUnderCursor)).mergeSort sortKeyLe).map (·.label)

/-- The candidate items carried by either response form. -/
def itemsOf : CompletionResponse → List CompletionItem
  | .array items => items
  | .list items => items

/-- The filter the handler actually applies, by response form. -/
def actualKeep : CompletionResponse → String → CompletionItem → Bool
  | .array _, word, i => keepArray word i
  | .list _, word, i => keepList word i

/-! Helper lemmas. -/

/-- The line component of a protocol position is the row of the location,
for every encoding. -/
theorem getLspPosition_line (enc : Encoding) (d : Doc) (loc : Loc) :
    (getLspPosition enc d loc).line = loc.y := by
  cases enc <;> rfl

/-- Erasing a key removes its binding. -/
theorem lookup_alErase_self {α : Type} (m : List (Url × α)) (k : Url) :
    List.lookup k (alErase m k) = none := by
  induction m with
  | nil => rfl
  | cons p t ih =>
    by_cases h : p.1 = k
    · simpa [alErase, List.filter_cons, h] using ih
    · have hbeq : (k == p.1) = false := by
        simp [beq_iff_eq]
        exact fun he => h he.symm
      simpa [alErase, List.filter_cons, h, List.lookup, hbeq] using ih

/-- Inserting a binding makes it the one found by lookup. -/
theorem lookup_alInsert_self {α : Type} (m : List (Url × α)) (k : Url) (v : α) :
    List.lookup k (alInsert m k v).1 = some v := by
  simp [alInsert, List.lookup]

/-- Reduction of an `Except` bind over a success value. -/
theorem bindOk {ε α β : Type} (a : α) (f : α → Except ε β) :
    (do let x ← Except.ok (ε := ε) a; f x) = f a := rfl

/-- Reduction of an `Except` bind over an error value. -/
theorem bindErr {ε α β : Type} (e : ε) (f : α → Except ε β) :
    (do let x ← Except.error (α := α) e; f x) = Except.error e := rfl

/-! Theorems for the claims. -/

/-- C5: for every single-character insert edit, the emitted change descriptor
is a pure insertion point: start and end are the same position, computed from
the cursor location just before the character is inserted (after any
synthetic blank-line insertion), and the replacement text is exactly the
inserted character. The insertion descriptor is the last one `App::character`
emits. -/
theorem character_insert_pure_insertion_point (enc : Encoding) (d : Doc) (c : Char) :
    ∃ p : Position,
      (characterD enc d c).2.getLast? = some ((⟨p, p⟩, String.singleton c) : Change) ∧
      p = getLspPosition enc (newRowD enc d).1 (newRowD enc d).1.cursor := by
  refine ⟨getLspPosition enc (newRowD enc d).1 (newRowD enc d).1.cursor, ?_, rfl⟩
  simp [characterD]

/-- C6: deleting the character at column `i := cursor.x - 1` (the character
just before the cursor, within a line) emits the descriptor with range
`[pos(i), pos(i) + 1)` — the end is start with `character + 1`, one code
unit — on the same line, with empty replacement text. -/
theorem backspace_delete_descriptor (enc : Encoding) (d : Doc) (line : List Char) (ch : Char)
    (hx : 0 < d.cursor.x)
    (hline : d.lines.get? d.cursor.y = some line)
    (hch : line.get? (d.cursor.x - 1) = some ch) :
    ∃ p : Position,
      (backspaceD enc d).2 = some ((⟨p, ⟨p.line, p.character + 1⟩⟩, "") : Change) ∧
      p = getLspPosition enc d ⟨d.cursor.x - 1, d.cursor.y⟩ ∧
      p.line = d.cursor.y := by
  refine ⟨getLspPosition enc d ⟨d.cursor.x - 1, d.cursor.y⟩, ?_, rfl, getLspPosition_line ..⟩
  have hx0 : ¬(d.cursor.x = 0 ∧ ¬d.cursor.y = 0 ∧ ¬d.lines.length ≤ d.cursor.y) := by
    rintro ⟨h, -, -⟩
    omega
  simp only [backspaceD, if_neg hx0, if_pos hx, hline, hch]

/-- C6 witness: backspace after the second character of the line `ab`. -/
theorem backspace_delete_descriptor_witness :
    0 < (2 : Nat) ∧
    ([['a', 'b']].get? 0 = some ['a', 'b']) ∧
    (['a', 'b'].get? 1 = some 'b') ∧
    ∃ p : Position,
      (backspaceD .utf32 ⟨[['a', 'b']], ⟨2, 0⟩⟩).2 =
        some ((⟨p, ⟨p.line, p.character + 1⟩⟩, "") : Change) ∧
      p = getLspPosition .utf32 ⟨[['a', 'b']], ⟨2, 0⟩⟩ ⟨1, 0⟩ ∧
      p.line = 0 :=
  ⟨by decide, by decide, by decide,
    backspace_delete_descriptor .utf32 ⟨[['a', 'b']], ⟨2, 0⟩⟩ ['a', 'b'] 'b'
      (by decide) (by decide) (by decide)⟩

/-- C7: splitting a line at the cursor emits the descriptor with range
`[pos, (row + 1, 0))` and the hard-coded two-character terminator as
replacement text, whatever the buffer holds. -/
theorem enter_split_descriptor (enc : Encoding) (d : Doc)
    (h : d.cursor.y ≠ d.lines.length) :
    ∃ p : Position,
      (enterD enc d).2 = some ((⟨p, ⟨p.line + 1, 0⟩⟩, "\r\n") : Change) ∧
      p = getLspPosition enc d d.cursor ∧
      p.line = d.cursor.y := by
  refine ⟨getLspPosition enc d d.cursor, ?_, rfl, getLspPosition_line ..⟩
  simp only [enterD, if_pos h]

/-- C7 witness: split the line `ab` after its first character. -/
theorem enter_split_descriptor_witness :
    ((0 : Nat) ≠ 1) ∧
    ∃ p : Position,
      (enterD .utf16 ⟨[['a', 'b']], ⟨1, 0⟩⟩).2 =
        some ((⟨p, ⟨p.line + 1, 0⟩⟩, "\r\n") : Change) ∧
      p = getLspPosition .utf16 ⟨[['a', 'b']], ⟨1, 0⟩⟩ ⟨1, 0⟩ ∧
      p.line = 0 :=
  ⟨by decide, enter_split_descriptor .utf16 ⟨[['a', 'b']], ⟨1, 0⟩⟩ (by decide)⟩

/-- C2 counterexample: opening a document whose id already has entries in the
session store does not fail — `insert_document` returns `Ok` (it overwrites;
only a `debug_assert!` flags the duplicate), refuting the claim that a
duplicate open fails with a reported error. -/
theorem duplicate_open_does_not_fail :
    (List.lookup "file://a"
      (Session.documentTexts ⟨true, [("file://a", "old")], [("file://a", ())], [("file://a", 0)]⟩)
        ≠ none) ∧
    didOpen (T := Nat) (fun _ => some 7)
        ⟨true, [("file://a", "old")], [("file://a", ())], [("file://a", 0)]⟩ "file://a" "x" =
      .ok ⟨true, [("file://a", "x")], [("file://a", ())], [("file://a", 7)]⟩ := by
  constructor
  · intro h
    simp [List.lookup] at h
  · rfl

/-- C2 (amended): when the initial parse succeeds, `did_open` never fails.
Under a fresh id it inserts all three resource entries and the duplicate
debug assertions hold; under an already-present id it still succeeds,
overwriting all three entries, and the assertion flag is false. -/
theorem did_open_insert_semantics {T : Type} (parse : String → Option T)
    (s : Session T) (uri : Url) (text : String) (tree : T)
    (hp : parse text = some tree) :
    ∃ (s1 : Session T) (b : Bool),
      didOpen parse s uri text = .ok s1 ∧
      insertDocument s uri ⟨text, tree⟩ = .ok (s1, b) ∧
      List.lookup uri s1.documentTexts = some text ∧
      List.lookup uri s1.documentParsers = some () ∧
      List.lookup uri s1.documentTrees = some tree ∧
      (b = true ↔
        (List.lookup uri s.documentTexts = none ∧
          List.lookup uri s.documentParsers = none ∧
          List.lookup uri s.documentTrees = none)) := by
  refine ⟨_, _, ?_, rfl, ?_, ?_, ?_, ?_⟩
  · simp [didOpen, documentOpen, hp, insertDocument, Except.map]
  · exact lookup_alInsert_self ..
  · exact lookup_alInsert_self ..
  · exact lookup_alInsert_self ..
  · simp [insertDocument, alInsert, Option.isNone_iff_eq_none]
    tauto

/-- C2 witness: a fresh open against an empty session store. -/
theorem did_open_insert_semantics_witness :
    ((fun _ => some 7) : String → Option Nat) "x" = some 7 ∧
    ∃ (s1 : Session Nat) (b : Bool),
      didOpen (T := Nat) (fun _ => some 7) ⟨true, [], [], []⟩ "file://a" "x" = .ok s1 ∧
      insertDocument ⟨true, [], [], []⟩ "file://a" ⟨"x", 7⟩ = .ok (s1, b) ∧
      List.lookup "file://a" s1.documentTexts = some "x" ∧
      List.lookup "file://a" s1.documentParsers = some () ∧
      List.lookup "file://a" s1.documentTrees = some 7 ∧
      (b = true ↔
        (List.lookup "file://a" (Session.documentTexts (T := Nat) ⟨true, [], [], []⟩) = none ∧
          List.lookup "file://a" (Session.documentParsers (T := Nat) ⟨true, [], [], []⟩) = none ∧
          List.lookup "file://a" (Session.documentTrees (T := Nat) ⟨true, [], [], []⟩) = none)) :=
  ⟨rfl, did_open_insert_semantics (fun _ => some 7) ⟨true, [], [], []⟩ "file://a" "x" 7 rfl⟩

/-- C3 counterexample: closing an id with no entries does not fail —
`remove_document` returns `Ok` on an empty store (only `debug_assert!`
flags the absence), refuting the claim that such a close fails. -/
theorem close_absent_does_not_fail :
    removeDocument (T := Nat) ⟨true, [], [], []⟩ "file://a" =
      .ok (⟨true, [], [], []⟩, false) := by
  rfl

/-- C3 (amended): `did_close` removes whatever text, parser and tree entries
exist for the id and succeeds even when the id is absent (absence is flagged
only by debug assertions, recorded in the `Bool`); the final text is dropped,
not returned to the caller, and an empty-diagnostics reset is published for
the uri, failing only when no client handle is configured. -/
theorem did_close_semantics {T : Type} (s : Session T) (uri : Url)
    (hc : s.hasClient = true) :
    ∃ (s1 : Session T) (b : Bool),
      removeDocument s uri = .ok (s1, b) ∧
      didClose s uri = .ok (s1, ⟨uri, [], none⟩) ∧
      List.lookup uri s1.documentTexts = none ∧
      List.lookup uri s1.documentParsers = none ∧
      List.lookup uri s1.documentTrees = none ∧
      (b = true ↔
        ((List.lookup uri s.documentTexts).isSome = true ∧
          (List.lookup uri s.documentParsers).isSome = true ∧
          (List.lookup uri s.documentTrees).isSome = true)) := by
  refine ⟨_, _, rfl, ?_, ?_, ?_, ?_, ?_⟩
  · simp [didClose, removeDocument, hc, bindOk]
  · exact lookup_alErase_self ..
  · exact lookup_alErase_self ..
  · exact lookup_alErase_self ..
  · simp [removeDocument, alRemove]
    tauto

/-- C3 witness: close the only open document of a one-document store. -/
theorem did_close_semantics_witness :
    (Session.hasClient (T := Nat) ⟨true, [("u", "t")], [("u", ())], [("u", 3)]⟩ = true) ∧
    ∃ (s1 : Session Nat) (b : Bool),
      removeDocument ⟨true, [("u", "t")], [("u", ())], [("u", 3)]⟩ "u" = .ok (s1, b) ∧
      didClose ⟨true, [("u", "t")], [("u", ())], [("u", 3)]⟩ "u" = .ok (s1, ⟨"u", [], none⟩) ∧
      List.lookup "u" s1.documentTexts = none ∧
      List.lookup "u" s1.documentParsers = none ∧
      List.lookup "u" s1.documentTrees = none ∧
      (b = true ↔
        ((List.lookup "u" (Session.documentTexts (T := Nat)
            ⟨true, [("u", "t")], [("u", ())], [("u", 3)]⟩)).isSome = true ∧
          (List.lookup "u" (Session.documentParsers (T := Nat)
            ⟨true, [("u", "t")], [("u", ())], [("u", 3)]⟩)).isSome = true ∧
          (List.lookup "u" (Session.documentTrees (T := Nat)
            ⟨true, [("u", "t")], [("u", ())], [("u", 3)]⟩)).isSome = true)) :=
  ⟨rfl, did_close_semantics ⟨true, [("u", "t")], [("u", ())], [("u", 3)]⟩ "u" rfl⟩

/-- C4 counterexample: when the initial parse fails, the document does not
exist in the session at all (no entry is inserted), and a subsequent
document-symbol query fails with a typed Document-not-found error instead of
returning empty results. -/
theorem failed_parse_open_cex :
    didOpen (T := Nat) (fun _ => none) ⟨true, [], [], []⟩ "file://a" "let x" =
      .ok ⟨true, [], [], []⟩ ∧
    List.lookup "file://a" (Session.documentTexts (T := Nat) ⟨true, [], [], []⟩) = none ∧
    documentSymbol (fun (_ : Nat) (_ : String) => ([] : List Nat)) ⟨true, [], [], []⟩ "file://a" =
      .error (.sessionResourceNotFound .document "file://a") :=
  ⟨rfl, rfl, rfl⟩

/-- C4 (amended): if the initial parse of a newly opened document fails,
`did_open` succeeds without inserting anything (the condition is per-document
and non-fatal, logged as a warning), and a document-symbol query against the
still-absent id propagates the typed Document-not-found error rather than
returning empty results. -/
theorem failed_parse_open_semantics {T σ : Type} (extract : T → String → List σ)
    (parse : String → Option T) (s : Session T) (uri : Url) (text : String)
    (hp : parse text = none)
    (habs : List.lookup uri s.documentTexts = none) :
    didOpen parse s uri text = .ok s ∧
    documentSymbol extract s uri = .error (.sessionResourceNotFound .document uri) := by
  constructor
  · simp [didOpen, documentOpen, hp]
  · simp [documentSymbol, getText, habs, bindErr]

/-- C4 witness: a failing parse over a session that holds one other
document. -/
theorem failed_parse_open_semantics_witness :
    ((fun _ => none) : String → Option Nat) "let x" = none ∧
    List.lookup "file://a"
      (Session.documentTexts (T := Nat) ⟨true, [("file://b", "y")], [("file://b", ())], [("file://b", 1)]⟩) = none ∧
    (didOpen (T := Nat) (fun _ => none)
        ⟨true, [("file://b", "y")], [("file://b", ())], [("file://b", 1)]⟩ "file://a" "let x" =
      .ok ⟨true, [("file://b", "y")], [("file://b", ())], [("file://b", 1)]⟩ ∧
    documentSymbol (fun (_ : Nat) (_ : String) => ([] : List Nat))
        ⟨true, [("file://b", "y")], [("file://b", ())], [("file://b", 1)]⟩ "file://a" =
      .error (.sessionResourceNotFound .document "file://a")) :=
  ⟨rfl, by simp [List.lookup],
    failed_parse_open_semantics (fun _ _ => []) (fun _ => none)
      ⟨true, [("file://b", "y")], [("file://b", ())], [("file://b", 1)]⟩ "file://a" "let x"
      rfl (by simp [List.lookup])⟩

/-- C10: `did_change` replaces the stored text wholesale with the text of the
first element of `content_changes`; any later elements are ignored (the call
is equivalent to one with only the first element), and an empty
`content_changes` list hits the unguarded `[0]` access, modeled as the
index-out-of-bounds panic. -/
theorem did_change_replaces_with_first {T : Type} (parse : String → Option T)
    (s : Session T) (uri : Url) (c : String) (rest : List String)
    (ht : (List.lookup uri s.documentTexts).isSome = true)
    (hp : (List.lookup uri s.documentParsers).isSome = true)
    (htr : (List.lookup uri s.documentTrees).isSome = true) :
    didChange parse s uri [] = .error .panicIndexOutOfBounds ∧
    didChange parse s uri (c :: rest) = didChange parse s uri [c] ∧
    ∃ s1 : Session T, didChange parse s uri (c :: rest) = .ok s1 ∧
      List.lookup uri s1.documentTexts = some c := by
  obtain ⟨t, ht⟩ := Option.isSome_iff_exists.mp ht
  obtain ⟨u, hp⟩ := Option.isSome_iff_exists.mp hp
  obtain ⟨tr, htr⟩ := Option.isSome_iff_exists.mp htr
  refine ⟨?_, rfl, ?_⟩
  · simp [didChange, getText, ht, bindOk]
  · cases hparse : parse c with
    | none =>
      refine ⟨setText s uri c, ?_, lookup_alInsert_self ..⟩
      simp [didChange, getText, ht, bindOk, documentChange, getParserPresence,
        setText, hp, hparse]
    | some tree =>
      refine ⟨setTree (setText s uri c) uri tree, ?_, ?_⟩
      · simp [didChange, getText, ht, bindOk, documentChange, getParserPresence,
          setText, setTree, hp, hparse, getTree, htr]
      · simpa [setTree] using lookup_alInsert_self s.documentTexts uri c

/-- C10 witness: a change notification with two elements against an open
document. -/
theorem did_change_replaces_with_first_witness :
    ((List.lookup "u" (Session.documentTexts (T := Nat)
        ⟨true, [("u", "t")], [("u", ())], [("u", 5)]⟩)).isSome = true) ∧
    ((List.lookup "u" (Session.documentParsers (T := Nat)
        ⟨true, [("u", "t")], [("u", ())], [("u", 5)]⟩)).isSome = true) ∧
    ((List.lookup "u" (Session.documentTrees (T := Nat)
        ⟨true, [("u", "t")], [("u", ())], [("u", 5)]⟩)).isSome = true) ∧
    (didChange (fun _ => some 9) ⟨true, [("u", "t")], [("u", ())], [("u", 5)]⟩ "u" [] =
        .error .panicIndexOutOfBounds ∧
      didChange (fun _ => some 9) ⟨true, [("u", "t")], [("u", ())], [("u", 5)]⟩ "u"
          ["new", "ignored"] =
        didChange (fun _ => some 9) ⟨true, [("u", "t")], [("u", ())], [("u", 5)]⟩ "u" ["new"] ∧
      ∃ s1 : Session Nat,
        didChange (fun _ => some 9) ⟨true, [("u", "t")], [("u", ())], [("u", 5)]⟩ "u"
            ["new", "ignored"] = .ok s1 ∧
          List.lookup "u" s1.documentTexts = some "new") :=
  ⟨rfl, rfl, rfl,
    did_change_replaces_with_first (fun _ => some 9)
      ⟨true, [("u", "t")], [("u", ())], [("u", 5)]⟩ "u" "new" ["ignored"] rfl rfl rfl⟩

/-- `finishKey` creates a change command exactly when there are change
descriptors, carrying the pre-increment counter value. -/
theorem finishKey_changeCmd (a : App) (d : Doc) (cs : List Change) :
    (finishKey a d cs).changeCmd = if cs = [] then none else some (cs, a.version) := by
  unfold finishKey
  dsimp only
  split
  · repeat' split
    all_goals rfl
  · next h =>
    push_neg at h
    simp [h.2]

/-- `finishKey` advances the wrapped counter exactly when there are change
descriptors. -/
theorem finishKey_version (a : App) (d : Doc) (cs : List Change) :
    (finishKey a d cs).app.version = if cs = [] then a.version else i32wrap (a.version + 1) := by
  unfold finishKey
  dsimp only
  split
  · repeat' split
    all_goals rfl
  · next h =>
    push_neg at h
    simp [h.2]

/-- The document stored by `finishKey` is the post-edit document. -/
theorem finishKey_app_doc (a : App) (d : Doc) (cs : List Change) :
    (finishKey a d cs).app.doc = d := by
  unfold finishKey
  dsimp only
  repeat' split
  all_goals rfl

/-- Every key except the early-returning Ctrl+Q runs the edit phase and then
`finishKey`. -/
theorem handleKeyEvent_eq_finishKey (a : App) (k : Key) (h : ¬k = Key.ctrlQ) :
    handleKeyEvent a k =
      finishKey a (applyKey a.capabilities.encoding a.doc k).1
        (applyKey a.capabilities.encoding a.doc k).2 := by
  cases k
  case ctrlQ => exact absurd rfl h
  all_goals rfl

/-- A keystroke that creates no change command leaves the version counter
untouched. -/
theorem handleKeyEvent_version_of_cmd_none (a : App) (k : Key)
    (h : (handleKeyEvent a k).changeCmd = none) :
    (handleKeyEvent a k).app.version = a.version := by
  by_cases hq : k = Key.ctrlQ
  · subst hq
    rfl
  · rw [handleKeyEvent_eq_finishKey a k hq] at h ⊢
    rw [finishKey_changeCmd] at h
    rw [finishKey_version]
    by_cases hcs : (applyKey a.capabilities.encoding a.doc k).2 = []
    · simp [hcs]
    · rw [if_neg hcs] at h
      cases h

/-- A keystroke that creates a change command stamps it with the current
counter value and stores the wrapped increment. -/
theorem handleKeyEvent_cmd_some (a : App) (k : Key) (cv : List Change × Int)
    (h : (handleKeyEvent a k).changeCmd = some cv) :
    cv.2 = a.version ∧ (handleKeyEvent a k).app.version = i32wrap (a.version + 1) := by
  by_cases hq : k = Key.ctrlQ
  · subst hq
    cases h
  · rw [handleKeyEvent_eq_finishKey a k hq] at h ⊢
    rw [finishKey_changeCmd] at h
    rw [finishKey_version]
    by_cases hcs : (applyKey a.capabilities.encoding a.doc k).2 = []
    · rw [if_pos hcs] at h
      cases h
    · rw [if_neg hcs] at h
      injection h with h
      subst h
      exact ⟨rfl, by rw [if_neg hcs]⟩

/-- The two's-complement wrap is the identity inside the `i32` value range. -/
theorem i32wrap_eq_self {n : Int} (h1 : -2147483648 ≤ n) (h2 : n ≤ 2147483647) :
    i32wrap n = n := by
  unfold i32wrap
  have hm : (n + 2 ^ 31) % 2 ^ 32 = n + 2 ^ 31 := by
    apply Int.emod_eq_of_lt
    · norm_num
      omega
    · norm_num
      omega
  rw [hm]
  ring

/-- Along any keystroke trace whose length keeps the `i32` counter away from
overflow, the emitted change-notification versions are strictly increasing,
and all of them at least the starting counter value. -/
theorem version_run_aux :
    ∀ (ks : List Key) (a : App), 0 ≤ a.version →
      a.version + (ks.length : Int) ≤ 2147483647 →
      List.Pairwise (· < ·) (emittedVersions a ks) ∧
        ∀ v ∈ emittedVersions a ks, a.version ≤ v := by
  intro ks
  induction ks with
  | nil =>
    intro a _ _
    refine ⟨List.Pairwise.nil, ?_⟩
    intro v hv
    simp [emittedVersions, runKeys] at hv
  | cons k rest ih =>
    intro a h0 hb
    have hb1 : a.version + (rest.length : Int) + 1 ≤ 2147483647 := by
      simp only [List.length_cons] at hb
      push_cast at hb
      omega
    have hsplit : emittedVersions a (k :: rest) =
        (handleKeyEvent a k).changeCmd.toList.map (·.2) ++
          emittedVersions (handleKeyEvent a k).app rest := by
      simp [emittedVersions, runKeys]
    cases hcmd : (handleKeyEvent a k).changeCmd with
    | none =>
      have hver := handleKeyEvent_version_of_cmd_none a k hcmd
      have := ih (handleKeyEvent a k).app (by rw [hver]; exact h0)
        (by rw [hver]; omega)
      rw [hsplit, hcmd]
      simpa [hver] using this
    | some cv =>
      obtain ⟨hv2, hver⟩ := handleKeyEvent_cmd_some a k cv hcmd
      have hwrap : i32wrap (a.version + 1) = a.version + 1 :=
        i32wrap_eq_self (by omega) (by omega)
      have ihrec := ih (handleKeyEvent a k).app (by rw [hver, hwrap]; omega)
        (by rw [hver, hwrap]; omega)
      rw [hsplit, hcmd]
      simp only [Option.toList_some, List.map_cons, List.map_nil, List.singleton_append, hv2]
      constructor
      · refine List.Pairwise.cons ?_ ihrec.1
        intro v hv
        have := ihrec.2 v hv
        rw [hver, hwrap] at this
        omega
      · intro v hv
        rcases List.mem_cons.mp hv with h | h
        · omega
        · have := ihrec.2 v h
          rw [hver, hwrap] at this
          omega

/-- C1: along any interleaving of keystrokes (each emitted change command
obtains its version by one `fetch_add` of the document's counter, including
keystrokes whose command bundles the synthetic blank-line-insertion edit),
the versions attached to the outgoing change notifications are strictly
increasing — hence never reused — as long as the `i32` counter does not
overflow. -/
theorem emitted_versions_strictly_increasing (a : App) (ks : List Key)
    (h0 : 0 ≤ a.version) (hb : a.version + (ks.length : Int) ≤ 2147483647) :
    List.Pairwise (· < ·) (emittedVersions a ks) :=
  (version_run_aux ks a h0 hb).1

/-- C1 witness: two keystrokes (a character insert, which bundles a synthetic
blank-line edit on the empty document, then a line split) from a fresh
counter. -/
theorem emitted_versions_strictly_increasing_witness :
    (0 : Int) ≤ 0 ∧
    (0 : Int) + (([Key.char 'a', Key.enter, Key.char 'b'].length : Nat) : Int) ≤ 2147483647 ∧
    List.Pairwise (· < ·)
      (emittedVersions ⟨⟨[], .utf32⟩, ⟨[], ⟨0, 0⟩⟩, 0, false, []⟩
        [Key.char 'a', Key.enter, Key.char 'b']) :=
  ⟨by decide, by decide,
    emitted_versions_strictly_increasing ⟨⟨[], .utf32⟩, ⟨[], ⟨0, 0⟩⟩, 0, false, []⟩
      [Key.char 'a', Key.enter, Key.char 'b'] (by decide) (by decide)⟩

/-- `asciiLine` unpacked to a membership statement. -/
theorem asciiLine_iff (cs : List Char) :
    asciiLine cs = true ↔ ∀ c ∈ cs, c.utf8Size = 1 := by
  simp [asciiLine]

/-- On a single-byte line, byte slicing coincides with character slicing. -/
theorem bytePrefix_ascii :
    ∀ (cs : List Char) (n : Nat), (∀ c ∈ cs, c.utf8Size = 1) → n ≤ cs.length →
      bytePrefix cs n = some (cs.take n)
  | _, 0, _, _ => by simp [bytePrefix]
  | [], _ + 1, _, h => by simp at h
  | c :: rest, n + 1, hall, h => by
    have hc : c.utf8Size = 1 := hall c (List.mem_cons_self ..)
    have hrec := bytePrefix_ascii rest n (fun x hx => hall x (List.mem_cons_of_mem _ hx))
      (by simpa using h)
    simp [bytePrefix, hc, hrec]

/-- On single-byte characters the UTF-8 length is the character count. -/
theorem utf8Len_ascii (cs : List Char) (h : ∀ c ∈ cs, c.utf8Size = 1) :
    utf8Len cs = cs.length := by
  induction cs with
  | nil => rfl
  | cons c rest ih =>
    have ih2 := ih fun x hx => h x (List.mem_cons_of_mem _ hx)
    simp [utf8Len] at ih2 ⊢
    simp [h c (List.mem_cons_self ..), ih2]
    omega

/-- Characters of the trailing word prefix all come from the line. -/
theorem mem_of_mem_wordSuffix {p : Char → Bool} {l : List Char} {n : Nat} {c : Char}
    (hc : c ∈ ((l.take n).reverse.takeWhile p).reverse) : c ∈ l := by
  rw [List.mem_reverse] at hc
  have h2 := (List.takeWhile_prefix p).sublist.subset hc
  rw [List.mem_reverse] at h2
  exact List.take_subset _ _ h2

/-- The completion phase issues a request exactly when the keystroke moved
the cursor or produced changes and the specification's trigger condition
holds at the new cursor, on in-line cursors over single-byte lines. -/
theorem finishKey_requestIssued_iff (a : App) (d : Doc) (cs : List Change)
    (hascii : asciiLine (lineAt d d.cursor.y) = true)
    (hx : d.cursor.x ≤ (lineAt d d.cursor.y).length) :
    ((finishKey a d cs).requestIssued = true ↔
      ((d.cursor ≠ a.doc.cursor ∨ cs ≠ []) ∧
        specTriggerCond a.capabilities.triggerCharacters d = true)) := by
  have hall : ∀ c ∈ lineAt d d.cursor.y, c.utf8Size = 1 := (asciiLine_iff _).mp hascii
  have hbp : bytePrefix (lineAt d d.cursor.y) d.cursor.x =
      some ((lineAt d d.cursor.y).take d.cursor.x) :=
    bytePrefix_ascii _ _ hall hx
  have hword : wordUnderCursor d =
      (((lineAt d d.cursor.y).take d.cursor.x).reverse.takeWhile wordChar).reverse := by
    simp [wordUnderCursor, hbp]
  have hwlen : utf8Len (wordUnderCursor d) = (wordUnderCursor d).length := by
    apply utf8Len_ascii
    intro c hc
    rw [hword] at hc
    exact hall c (mem_of_mem_wordSuffix hc)
  unfold finishKey
  dsimp only
  split
  case isFalse h =>
    simp [h]
  case isTrue hmoved =>
    by_cases hx0 : 0 < d.cursor.x
    · have hlt : d.cursor.x - 1 < (lineAt d d.cursor.y).length := by omega
      obtain ⟨prev, hprev⟩ : ∃ p, (lineAt d d.cursor.y).get? (d.cursor.x - 1) = some p :=
        ⟨_, List.get?_eq_get hlt⟩
      simp only [if_pos hx0, hprev, specTriggerCond, iff_true_intro hmoved, true_and]
      rw [hword] at hwlen
      rw [List.length_reverse] at hwlen
      by_cases hmem : String.singleton prev ∈ a.capabilities.triggerCharacters
      · simp [hmem, hword, hwlen]
      · by_cases halnum : rustIsAlphanumeric prev = true ∨ prev = '_'
        · by_cases hlen :
            2 ≤ (((lineAt d d.cursor.y).take d.cursor.x).reverse.takeWhile wordChar).length
          · simp [hmem, halnum, hword, hwlen, hlen]
            rw [if_neg (by omega :
              ¬(((lineAt d d.cursor.y).take d.cursor.x).reverse.takeWhile wordChar).length < 2)]
          · simp [hmem, halnum, hword, hwlen, hlen]
            rw [if_pos (by omega :
              (((lineAt d d.cursor.y).take d.cursor.x).reverse.takeWhile wordChar).length < 2)]
        · simp [hmem, halnum, hword, hwlen]
          try tauto
    · simp only [if_neg hx0, specTriggerCond, hmoved, iff_true_intro hmoved, true_and]
      simp

/-- C8 counterexample: an unhandled keystroke (the wildcard arm) after the
two-character prefix `fo` issues no completion request even though the
claim's condition — alphanumeric previous character with prefix length at
least two — holds, refuting the claim's "after any keystroke" if-and-only-if
(the code additionally requires the keystroke to have moved the cursor or
produced changes). -/
theorem trigger_policy_claim_cex :
    (handleKeyEvent ⟨⟨[], .utf32⟩, ⟨[['f', 'o']], ⟨2, 0⟩⟩, 0, false, []⟩
        Key.other).requestIssued = false ∧
    specTriggerCond []
      (handleKeyEvent ⟨⟨[], .utf32⟩, ⟨[['f', 'o']], ⟨2, 0⟩⟩, 0, false, []⟩ Key.other).app.doc =
      true := by
  constructor
  · decide
  · decide

/-- C8 (amended): after any keystroke that moves the cursor or produces edit
changes — with the post-edit cursor inside its line and the line made of
single-byte characters, where the source's byte-indexed slicing and
byte-measured prefix length agree with character counts — a completion
request is issued if and only if the character immediately before the new
cursor column is alphanumeric, an underscore, or a declared trigger
character, and it is a trigger character or the contiguous
alphanumeric/underscore prefix ending at the cursor has length at least 2.
Keystrokes that neither move the cursor nor change the text (including the
early-returning quit chord) never issue a request. -/
theorem trigger_policy_iff (a : App) (k : Key) (o : KeyOut)
    (ho : handleKeyEvent a k = o)
    (hascii : asciiLine (lineAt o.app.doc o.app.doc.cursor.y) = true)
    (hx : o.app.doc.cursor.x ≤ (lineAt o.app.doc o.app.doc.cursor.y).length) :
    (o.requestIssued = true ↔
      ((o.changeCmd.isSome = true ∨ o.app.doc.cursor ≠ a.doc.cursor) ∧
        specTriggerCond a.capabilities.triggerCharacters o.app.doc = true)) := by
  subst ho
  by_cases hq : k = Key.ctrlQ
  · subst hq
    simp [handleKeyEvent]
  · rw [handleKeyEvent_eq_finishKey a k hq] at hascii hx ⊢
    rw [finishKey_app_doc] at hascii hx ⊢
    rw [finishKey_changeCmd]
    have hiff := finishKey_requestIssued_iff a
      (applyKey a.capabilities.encoding a.doc k).1
      (applyKey a.capabilities.encoding a.doc k).2 hascii hx
    rw [hiff]
    constructor
    · rintro ⟨hmoved, hspec⟩
      refine ⟨?_, hspec⟩
      rcases hmoved with h | h
      · exact Or.inr h
      · left
        rw [if_neg h]
        rfl
    · rintro ⟨hmoved, hspec⟩
      refine ⟨?_, hspec⟩
      rcases hmoved with h | h
      · right
        intro hcs
        rw [if_pos hcs] at h
        cases h
      · exact Or.inl h

/-- C8 witness: typing `o` after the single character `f` issues a request
(prefix `fo`), exercising the amended if-and-only-if. -/
theorem trigger_policy_iff_witness :
    handleKeyEvent ⟨⟨[], .utf32⟩, ⟨[['f']], ⟨1, 0⟩⟩, 0, false, []⟩ (Key.char 'o') =
      handleKeyEvent ⟨⟨[], .utf32⟩, ⟨[['f']], ⟨1, 0⟩⟩, 0, false, []⟩ (Key.char 'o') ∧
    asciiLine
      (lineAt
        (handleKeyEvent ⟨⟨[], .utf32⟩, ⟨[['f']], ⟨1, 0⟩⟩, 0, false, []⟩ (Key.char 'o')).app.doc
        (handleKeyEvent ⟨⟨[], .utf32⟩, ⟨[['f']], ⟨1, 0⟩⟩, 0, false, []⟩
          (Key.char 'o')).app.doc.cursor.y) = true ∧
    (handleKeyEvent ⟨⟨[], .utf32⟩, ⟨[['f']], ⟨1, 0⟩⟩, 0, false, []⟩
        (Key.char 'o')).app.doc.cursor.x ≤
      (lineAt
        (handleKeyEvent ⟨⟨[], .utf32⟩, ⟨[['f']], ⟨1, 0⟩⟩, 0, false, []⟩ (Key.char 'o')).app.doc
        (handleKeyEvent ⟨⟨[], .utf32⟩, ⟨[['f']], ⟨1, 0⟩⟩, 0, false, []⟩
          (Key.char 'o')).app.doc.cursor.y).length ∧
    ((handleKeyEvent ⟨⟨[], .utf32⟩, ⟨[['f']], ⟨1, 0⟩⟩, 0, false, []⟩
        (Key.char 'o')).requestIssued = true ↔
      (((handleKeyEvent ⟨⟨[], .utf32⟩, ⟨[['f']], ⟨1, 0⟩⟩, 0, false, []⟩
          (Key.char 'o')).changeCmd.isSome = true ∨
        (handleKeyEvent ⟨⟨[], .utf32⟩, ⟨[['f']], ⟨1, 0⟩⟩, 0, false, []⟩
          (Key.char 'o')).app.doc.cursor ≠
          (⟨⟨[], .utf32⟩, ⟨[['f']], ⟨1, 0⟩⟩, 0, false, []⟩ : App).doc.cursor) ∧
        specTriggerCond []
          (handleKeyEvent ⟨⟨[], .utf32⟩, ⟨[['f']], ⟨1, 0⟩⟩, 0, false, []⟩
            (Key.char 'o')).app.doc = true)) :=
  ⟨rfl, by decide, by decide,
    trigger_policy_iff ⟨⟨[], .utf32⟩, ⟨[['f']], ⟨1, 0⟩⟩, 0, false, []⟩ (Key.char 'o') _
      rfl (by decide) (by decide)⟩

/-- The comparator test agrees with the string order. -/
theorem strLe_iff (a b : String) : strLe a b = true ↔ a ≤ b := by
  simp [strLe, le_iff_lt_or_eq]

/-- The sort-key comparator is transitive. -/
theorem sortKeyLe_trans (a b c : CompletionItem) (hab : sortKeyLe a b = true)
    (hbc : sortKeyLe b c = true) : sortKeyLe a c = true := by
  unfold sortKeyLe at hab hbc ⊢
  cases ha : a.sortText with
  | none => rfl
  | some x =>
    cases hb : b.sortText with
    | none =>
      rw [ha, hb] at hab
      cases hab
    | some y =>
      cases hc : c.sortText with
      | none =>
        rw [hb, hc] at hbc
        cases hbc
      | some z =>
        rw [ha, hb] at hab
        rw [hb, hc] at hbc
        rw [strLe_iff] at hab hbc ⊢
        exact le_trans hab hbc

/-- The sort-key comparator is total. -/
theorem sortKeyLe_total (a b : CompletionItem) :
    (sortKeyLe a b || sortKeyLe b a) = true := by
  unfold sortKeyLe
  cases a.sortText with
  | none => rfl
  | some x =>
    cases b.sortText with
    | none => rfl
    | some y =>
      simp only [Bool.or_eq_true, strLe_iff]
      exact le_total x y

/-- C9 counterexample: in the plain-array form the filter uses the label
only; an item whose filter text starts with the tracked word but whose label
does not is dropped, refuting the claim that both forms filter by filter
text with label fallback. -/
theorem completion_filter_array_uses_label_cex :
    specKeep "foo" ⟨"bar", some "foo", none⟩ = true ∧
    handleCompletionResponse (.array [⟨"bar", some "foo", none⟩]) "foo" = [] := by
  refine ⟨by decide, ?_⟩
  have hf : List.filter (keepArray "foo") [(⟨"bar", some "foo", none⟩ : CompletionItem)] = [] := by
    decide
  simp [handleCompletionResponse, hf]

/-- C9 (amended): a candidate is kept if and only if, in the list form, its
filter text — falling back to its label — starts with the tracked prefix
word, and, in the plain-array form, its label starts with it (the array
branch ignores filter text); the kept candidates are returned in an order
sorted by the server-provided sort key (`Option` order: absent keys first,
present keys byte-lexicographic), as a permutation of the filtered items
with their labels projected out. -/
theorem completion_filter_sort_semantics (resp : CompletionResponse) (word : String) :
    ∃ kept : List CompletionItem,
      kept.Perm ((itemsOf resp).filter (actualKeep resp word)) ∧
      List.Pairwise (fun a b => sortKeyLe a b = true) kept ∧
      handleCompletionResponse resp word = kept.map (·.label) ∧
      ∀ i : CompletionItem,
        i ∈ kept ↔ (i ∈ itemsOf resp ∧ actualKeep resp word i = true) := by
  refine ⟨((itemsOf resp).filter (actualKeep resp word)).mergeSort sortKeyLe, ?_, ?_, ?_, ?_⟩
  · exact List.mergeSort_perm _ _
  · exact List.sorted_mergeSort sortKeyLe_trans sortKeyLe_total _
  · cases resp <;> rfl
  · intro i
    rw [(List.mergeSort_perm _ _).mem_iff, List.mem_filter]

end LspTui
